import Mathlib

/-!
Verification of the toy blockchain in `src/blockchain.rs`.

The Rust source is shallowly embedded: machine integers `u32`/`u64` become
`Nat` (no claim in this development distinguishes values at or beyond `2^32`,
and the proof-of-work loop is bounded by an explicit fuel argument, so no
wraparound site is observable), `f32` amounts become `ℚ` (every amount and
balance appearing in a claim is a small integer, on which `f32` arithmetic and
comparison are exact), the `HashMap<String, f32>` of balances becomes an
association list with first-match lookup, `panic!`/`unwrap()` failure becomes
`Option.none`, and the unbounded `loop` of `proof_of_work` takes fuel.
Strings produced by the program are ASCII, so Rust byte slicing and UTF-8
encoding coincide with `Char`-list operations.
-/

namespace Toy

/-! ### SHA-256 (the `sha2` crate's `Sha256`), over byte lists -/

def w32mod : Nat := 4294967296

def rotr (n x : Nat) : Nat := ((x >>> n) ||| (x <<< (32 - n))) % w32mod

def shr (n x : Nat) : Nat := x >>> n

def bigS0 (x : Nat) : Nat := (rotr 2 x) ^^^ (rotr 13 x) ^^^ (rotr 22 x)

def bigS1 (x : Nat) : Nat := (rotr 6 x) ^^^ (rotr 11 x) ^^^ (rotr 25 x)

def smallS0 (x : Nat) : Nat := (rotr 7 x) ^^^ (rotr 18 x) ^^^ (shr 3 x)

def smallS1 (x : Nat) : Nat := (rotr 17 x) ^^^ (rotr 19 x) ^^^ (shr 10 x)

def chf (x y z : Nat) : Nat := (x &&& y) ^^^ ((x ^^^ 4294967295) &&& z)

def maj (x y z : Nat) : Nat := (x &&& y) ^^^ (x &&& z) ^^^ (y &&& z)

def sha256K : List Nat :=
  [1116352408, 1899447441, 3049323471, 3921009573, 961987163, 1508970993,
   2453635748, 2870763221, 3624381080, 310598401, 607225278, 1426881987,
   1925078388, 2162078206, 2614888103, 3248222580, 3835390401, 4022224774,
   264347078, 604807628, 770255983, 1249150122, 1555081692, 1996064986,
   2554220882, 2821834349, 2952996808, 3210313671, 3336571891, 3584528711,
   113926993, 338241895, 666307205, 773529912, 1294757372, 1396182291,
   1695183700, 1986661051, 2177026350, 2456956037, 2730485921, 2820302411,
   3259730800, 3345764771, 3516065817, 3600352804, 4094571909, 275423344,
   430227734, 506948616, 659060556, 883997877, 958139571, 1322822218,
   1537002063, 1747873779, 1955562222, 2024104815, 2227730452, 2361852424,
   2428436474, 2756734187, 3204031479, 3329325298]

structure HashState where
  a : Nat
  b : Nat
  c : Nat
  d : Nat
  e : Nat
  f : Nat
  g : Nat
  h : Nat
deriving DecidableEq

def initState : HashState :=
  ⟨1779033703, 3144134277, 1013904242, 2773480762, 1359893119, 2600822924, 528734635, 1541459225⟩

def shaRound (st : HashState) (kw : Nat) : HashState :=
  let t1 := (st.h + bigS1 st.e + chf st.e st.f st.g + kw) % w32mod
  let t2 := (bigS0 st.a + maj st.a st.b st.c) % w32mod
  { a := (t1 + t2) % w32mod, b := st.a, c := st.b, d := st.c,
    e := (st.d + t1) % w32mod, f := st.e, g := st.f, h := st.g }

/-- Extend the (reversed) 16-word schedule by `n` further words. -/
def schedExt : Nat → List Nat → List Nat
  | 0, rev => rev
  | n + 1, rev =>
    let w := (smallS1 (rev.getD 1 0) + rev.getD 6 0 + smallS0 (rev.getD 14 0) + rev.getD 15 0) % w32mod
    schedExt n (w :: rev)

def schedule (ws16 : List Nat) : List Nat := (schedExt 48 ws16.reverse).reverse

def shaCompress (st : HashState) (ws16 : List Nat) : HashState :=
  let kw := List.zipWith (fun k w => (k + w) % w32mod) sha256K (schedule ws16)
  let t := kw.foldl shaRound st
  { a := (st.a + t.a) % w32mod, b := (st.b + t.b) % w32mod,
    c := (st.c + t.c) % w32mod, d := (st.d + t.d) % w32mod,
    e := (st.e + t.e) % w32mod, f := (st.f + t.f) % w32mod,
    g := (st.g + t.g) % w32mod, h := (st.h + t.h) % w32mod }

def bytesToWords : List Nat → List Nat
  | b0 :: b1 :: b2 :: b3 :: rest => (b0 * 16777216 + b1 * 65536 + b2 * 256 + b3) :: bytesToWords rest
  | _ => []

def lenBytes (n : Nat) : List Nat :=
  [n / 72057594037927936 % 256, n / 281474976710656 % 256, n / 1099511627776 % 256,
   n / 4294967296 % 256, n / 16777216 % 256, n / 65536 % 256, n / 256 % 256, n % 256]

def padMessage (msg : List Nat) : List Nat :=
  msg ++ [128] ++ List.replicate ((119 - msg.length % 64) % 64) 0 ++ lenBytes (msg.length * 8)

def shaBlocks : Nat → HashState → List Nat → HashState
  | 0, st, _ => st
  | _ + 1, st, [] => st
  | fuel + 1, st, bytes => shaBlocks fuel (shaCompress st (bytesToWords (bytes.take 64))) (bytes.drop 64)

def wordBytes (w : Nat) : List Nat := [w / 16777216 % 256, w / 65536 % 256, w / 256 % 256, w % 256]

/-- SHA-256 digest of a byte list, as the list of its 32 bytes. -/
def sha256 (msg : List Nat) : List Nat :=
  let padded := padMessage msg
  let st := shaBlocks padded.length initState padded
  wordBytes st.a ++ wordBytes st.b ++ wordBytes st.c ++ wordBytes st.d ++
  wordBytes st.e ++ wordBytes st.f ++ wordBytes st.g ++ wordBytes st.h

/-! ### `Chain::hex_to_string` and `Chain::hash`

`hex_to_string` renders each digest byte with Rust's `{:x}` format: minimal
lowercase hex, **without** zero padding, so a byte below `0x10` contributes a
single character. -/

def hexDigitChar (n : Nat) : Char := if n < 10 then Char.ofNat (48 + n) else Char.ofNat (87 + n)

def byteHex (b : Nat) : List Char :=
  if b < 16 then [hexDigitChar b] else [hexDigitChar (b / 16), hexDigitChar (b % 16)]

def hex_to_string (bs : List Nat) : String := String.mk (bs.map byteHex).flatten

/-- The strings this program hashes are ASCII, so UTF-8 bytes = char codes. -/
def strBytes (s : String) : List Nat := s.data.map Char.toNat

/-- `Chain::hash` after `serde_json::to_string`: the argument is the JSON
serialization of the hashed item (produced by the `…Json` functions below). -/
def Chain.hash (input : String) : String := hex_to_string (sha256 (strBytes input))

/-! ### Data model and serde_json serialization

Field order in the JSON follows the `struct` declaration order, exactly as
`serde_json::to_string` emits it.  The strings the program serializes
(identifiers and hex digests) need no JSON escaping, and every `f32` amount
hashed in this development is integral, which ryu prints as `"N.0"`. -/

structure TimeStamp where
  secs_since_epoch : Nat
  nanos_since_epoch : Nat
deriving DecidableEq

structure Transaction where
  sender : String
  receiver : String
  amount : ℚ
deriving DecidableEq

structure Header where
  timestamp : TimeStamp
  nonce : Nat
  pre_hash : String
  merkle_root : String
  difficulty : Nat
deriving DecidableEq

structure Block where
  header : Header
  count : Nat
  transactions : List Transaction
deriving DecidableEq

structure Chain where
  records : List (String × ℚ)
  chain : List Block
  current_transaction : List Transaction
  difficulty : Nat
  miner_address : String
  reward : ℚ
deriving DecidableEq

def stringJson (s : String) : String := "\"" ++ s ++ "\""

/-- ryu rendering of an `f32`, restricted to the integral values this
development hashes (`100.0`, `30.0`, …): serde_json prints them as `"N.0"`. -/
def amountJson (q : ℚ) : String :=
  if q.den = 1 then toString q.num ++ ".0" else toString q

def txJson (t : Transaction) : String :=
  "\x7b\"sender\":" ++ stringJson t.sender ++ ",\"receiver\":" ++ stringJson t.receiver ++
    ",\"amount\":" ++ amountJson t.amount ++ "\x7d"

def timeJson (ts : TimeStamp) : String :=
  "\x7b\"secs_since_epoch\":" ++ Nat.repr ts.secs_since_epoch ++
    ",\"nanos_since_epoch\":" ++ Nat.repr ts.nanos_since_epoch ++ "\x7d"

def headerJson (h : Header) : String :=
  "\x7b\"timestamp\":" ++ timeJson h.timestamp ++ ",\"nonce\":" ++ Nat.repr h.nonce ++
    ",\"pre_hash\":" ++ stringJson h.pre_hash ++ ",\"merkle_root\":" ++ stringJson h.merkle_root ++
    ",\"difficulty\":" ++ Nat.repr h.difficulty ++ "\x7d"

/-! ### Ledger primitives (the `HashMap<String, f32>` as an association list) -/

/-- Subtraction of rationals in the normalized `mkRat` form.  Batteries marks
`Rat.sub` `@[irreducible]`, which blocks kernel evaluation of concrete runs;
this definition is proved equal to `a - b` in `ratSub_eq` below and is what
the embedded ledger mutations use. -/
def ratSub (a b : ℚ) : ℚ := mkRat (a.num * b.den - b.num * a.den) (a.den * b.den)

/-- Addition of rationals in the normalized `mkRat` form; equals `a + b`
(`ratAdd_eq` below). -/
def ratAdd (a b : ℚ) : ℚ := mkRat (a.num * b.den + b.num * a.den) (a.den * b.den)

def recGet (m : List (String × ℚ)) (k : String) : Option ℚ := (m.find? (fun p => p.1 == k)).map (·.2)

/-- Replace the value of the first entry for `k` (models `*get_mut(k) = v`). -/
def recSet : List (String × ℚ) → String → ℚ → List (String × ℚ)
  | [], _, _ => []
  | p :: rest, k, v => if p.1 == k then (k, v) :: rest else p :: recSet rest k v

/-- Lines 234–245 of `check_transfer_availability`: deduct from the sender
(`get_mut(sender).unwrap()` — `none` models the panic when the sender is
absent), then credit or insert the receiver. -/
def applyTransfer (m : List (String × ℚ)) (sender receiver : String) (amount : ℚ) :
    Option (List (String × ℚ)) :=
  match recGet m sender with
  | none => none
  | some v =>
    match recGet (recSet m sender (ratSub v amount)) receiver with
    | some w =>
      some (recSet (recSet m sender (ratSub v amount)) receiver (ratAdd w amount))
    | none => some (recSet m sender (ratSub v amount) ++ [(receiver, amount)])

/-- `Chain::check_transfer_availability`.  Returns the lines printed and
`some (result, chain)`, or `none` when the deduction step panics.  A missing
sender is only logged; the code still falls through to the deduction. -/
def Chain.check_transfer_availability (c : Chain) (sender receiver : String) (amount : ℚ) :
    List String × Option (Bool × Chain) :=
  match recGet c.records sender with
  | some val =>
    if val < amount then (["insufficient balance"], some (false, c))
    else
      match applyTransfer c.records sender receiver amount with
      | some r => ([], some (true, { c with records := r }))
      | none => ([], none)
  | none =>
    match applyTransfer c.records sender receiver amount with
    | some r => (["Sender not found!"], some (true, { c with records := r }))
    | none => (["Sender not found!"], none)

/-- `Chain::new_transaction` (`none` propagates a panic from the check). -/
def Chain.new_transaction (c : Chain) (sender receiver : String) (amount : ℚ) :
    Option (Bool × Chain) :=
  match (c.check_transfer_availability sender receiver amount).2 with
  | none => none
  | some (false, c') => some (false, c')
  | some (true, c') =>
    some (true, { c' with current_transaction :=
                    c'.current_transaction ++ [⟨sender, receiver, amount⟩] })

/-- The genesis sentinel `String::from_utf8(vec![48; 64])`: 64 ASCII `'0'`s. -/
def genesisSentinel : String := String.mk (List.replicate 64 '0')

def Chain.last_hash (c : Chain) : String :=
  match c.chain.getLast? with
  | some block => Chain.hash (headerJson block.header)
  | none => genesisSentinel

def Chain.update_difficulty (c : Chain) (difficulty : Nat) : Bool × Chain :=
  (true, { c with difficulty := difficulty })

def Chain.update_reward (c : Chain) (reward : ℚ) : Bool × Chain :=
  (true, { c with reward := reward })

/-! ### Merkle committer -/

/-- The `while merkle.len() > 1` loop: pop the two front hashes, hash their
concatenation (serialized as a JSON string, since `Chain::hash` is called on a
`String`), push the result at the back.  Fuel-indexed; fuel equal to the list
length always suffices. -/
def merkleLoop : Nat → List String → List String
  | 0, l => l
  | fuel + 1, h1 :: h2 :: rest => merkleLoop fuel (rest ++ [Chain.hash (stringJson (h1 ++ h2))])
  | _ + 1, l => l

/-- Lines 150–153 of `get_merkle`: duplicate the last leaf when the count is
odd (the `merkle.last().cloned().unwrap()` cannot fail there, since an
odd-length list is non-empty). -/
def merklePad (merkle : List String) : List String :=
  if merkle.length % 2 == 1 then
    match merkle.getLast? with
    | some last => merkle ++ [last]
    | none => merkle
  else merkle

/-- `Chain::get_merkle`: hash each transaction into a leaf, pad, fold the
pairing loop; the final `pop().unwrap()` panics (`none`) only on an empty
transaction list, which is unreachable from the chain operations. -/
def Chain.get_merkle (current_transactions : List Transaction) : Option String :=
  (merkleLoop (merklePad (current_transactions.map (fun t => Chain.hash (txJson t)))).length
    (merklePad (current_transactions.map (fun t => Chain.hash (txJson t))))).getLast?

/-! ### Proof of work -/

/-- Rust `str::parse::<u32>`: optional leading `'+'`, then a non-empty run of
decimal digits, rejecting on any other character or on overflow past `2^32`. -/
def parseDigits : List Char → Nat → Option Nat
  | [], acc => some acc
  | ch :: rest, acc =>
    if ch.isDigit then
      if acc * 10 + (ch.toNat - 48) < 4294967296 then
        parseDigits rest (acc * 10 + (ch.toNat - 48))
      else none
    else none

def parseU32 (s : String) : Option Nat :=
  match s.data with
  | [] => none
  | '+' :: rest => if rest.isEmpty then none else parseDigits rest 0
  | cs => parseDigits cs 0

/-- Rust byte slicing `&hash[..n]` (the strings involved are ASCII). -/
def strSlice (s : String) (n : Nat) : String := String.mk (s.data.take n)

/-- One iteration of the `proof_of_work` loop body on a computed hash:
`none` models the panic of `&hash[..difficulty]` when `difficulty` exceeds the
string's length; `some true` means the parse yielded zero (sealed); `some
false` means retry (non-zero value or parse error). -/
def powCheck (hash : String) (difficulty : Nat) : Option Bool :=
  if hash.length < difficulty then none
  else
    match parseU32 (strSlice hash difficulty) with
    | some val => if val != 0 then some false else some true
    | none => some false

inductive PowResult where
  | sealed : Header → PowResult
  | panicked : PowResult
deriving DecidableEq

/-- `Chain::proof_of_work`, fuel-indexed (the Rust loop is unbounded):
`none` means the fuel ran out with the loop still searching. -/
def powLoop : Nat → Header → Option PowResult
  | 0, _ => none
  | fuel + 1, header =>
    match powCheck (Chain.hash (headerJson header)) header.difficulty with
    | none => some PowResult.panicked
    | some true => some (PowResult.sealed header)
    | some false => powLoop fuel { header with nonce := header.nonce + 1 }

/-! ### Block generation -/

/-- Lines 126–135 of `generate_new_block`: credit the reward to the miner. -/
def creditReward (m : List (String × ℚ)) (receiver : String) (reward : ℚ) :
    List (String × ℚ) :=
  match recGet m receiver with
  | some v => recSet m receiver (ratAdd v reward)
  | none => m ++ [(receiver, reward)]

/-- `Chain::generate_new_block`, parameterized by the `SystemTime::now()`
value and the proof-of-work fuel.  `none` covers both the (unreachable)
`get_merkle` panic and a proof-of-work run that panicked or is still
searching when the fuel runs out. -/
def Chain.generate_new_block (c : Chain) (now : TimeStamp) (fuel : Nat) :
    Option (Bool × Chain) :=
  let header : Header :=
    { timestamp := now, nonce := 0, merkle_root := "", pre_hash := c.last_hash,
      difficulty := c.difficulty }
  let transaction_reward : Transaction :=
    { sender := "Root", receiver := c.miner_address, amount := c.reward }
  let txs := transaction_reward :: c.current_transaction
  match Chain.get_merkle txs with
  | none => none
  | some root =>
    match powLoop fuel { header with merkle_root := root } with
    | none => none
    | some PowResult.panicked => none
    | some (PowResult.sealed sealed) =>
      some (true,
        { c with
          records := creditReward c.records c.miner_address c.reward,
          current_transaction := [],
          chain := c.chain ++ [{ header := sealed, count := txs.length, transactions := txs }] })

/-- `Chain::new`: fresh state followed by the genesis `generate_new_block`. -/
def Chain.new (miner_address : String) (difficulty : Nat) (now : TimeStamp) (fuel : Nat) :
    Option Chain :=
  match Chain.generate_new_block
      { records := [], chain := [], current_transaction := [],
        difficulty := difficulty, miner_address := miner_address, reward := 100 } now fuel with
  | some (_, c') => some c'
  | none => none

/-- The chain states reachable through the public operations (each
block-generating step taken with some timestamp and enough fuel). -/
inductive Reachable : Chain → Prop where
  | new : ∀ m d now fuel c, Chain.new m d now fuel = some c → Reachable c
  | tx : ∀ c s r a ok c', Reachable c → c.new_transaction s r a = some (ok, c') → Reachable c'
  | gen : ∀ c now fuel ok c', Reachable c → c.generate_new_block now fuel = some (ok, c') →
      Reachable c'
  | upd_difficulty : ∀ c d, Reachable c → Reachable (c.update_difficulty d).2
  | upd_reward : ∀ c r, Reachable c → Reachable (c.update_reward r).2

/-! ### Derived definitions used by the statements -/

/-- The characters `0`–`9` and `a`–`f` that `hex_to_string` can emit. -/
def isHexChar (c : Char) : Bool := c.isDigit || ('a' ≤ c && c ≤ 'f')

/-- The reward transaction `generate_new_block` builds for a chain state. -/
def rewardTxOf (c : Chain) : Transaction :=
  { sender := "Root", receiver := c.miner_address, amount := c.reward }

/-- `linkedFrom prev l` states that the first block of `l` has `pre_hash =
prev` and every later block's `pre_hash` is the hash of its predecessor's
header. -/
def linkedFrom : String → List Block → Bool
  | _, [] => true
  | prev, b :: rest => (b.header.pre_hash == prev) && linkedFrom (Chain.hash (headerJson b.header)) rest

/-- The value `last_hash` returns on a chain whose empty-case sentinel is `s`. -/
def lastHashOf (s : String) (l : List Block) : String :=
  match l.getLast? with
  | some b => Chain.hash (headerJson b.header)
  | none => s

/-! ### Concrete states

`TS1` and `TS2` are `SystemTime` values under which the proof-of-work check
already succeeds at nonce `0` for difficulty `1`, so fuel `1` suffices and the
runs below are fully evaluated by the kernel. -/

def TS1 : TimeStamp := ⟨1700000187, 0⟩

def TS2 : TimeStamp := ⟨1700000122, 0⟩

def genesisHeader : Header :=
  { timestamp := TS1, nonce := 0, pre_hash := genesisSentinel,
    merkle_root := "349ad29f367e6db494c192d7a89abc16768752a174c6a5d21c046be92bf16af",
    difficulty := 1 }

def minerRewardTx : Transaction := { sender := "Root", receiver := "miner1", amount := 100 }

def bobTx : Transaction := { sender := "miner1", receiver := "bob", amount := 30 }

/-- The state `Chain::new("miner1", 1)` produces at time `TS1`. -/
def exampleChain : Chain :=
  { records := [("miner1", 100)],
    chain := [{ header := genesisHeader, count := 1, transactions := [minerRewardTx] }],
    current_transaction := [], difficulty := 1, miner_address := "miner1", reward := 100 }

/-- `exampleChain` after `new_transaction("miner1", "bob", 30)`. -/
def exampleChainB : Chain :=
  { exampleChain with
    records := [("miner1", 70), ("bob", 30)],
    current_transaction := [bobTx] }

def block2Header : Header :=
  { timestamp := TS2, nonce := 0,
    pre_hash := "04e189dc2111991c15262fd18d05d86c138aa58fae19ee44d527d68757522be",
    merkle_root := "2e654e7aa42bcd4fd49b4a34c7feb74aade1bba1686734c1d58ebb4c8fd6bf8c",
    difficulty := 1 }

/-- `exampleChainB` after `generate_new_block()` at time `TS2`. -/
def exampleChain2 : Chain :=
  { exampleChainB with
    records := [("miner1", 170), ("bob", 30)],
    chain := exampleChain.chain ++
      [{ header := block2Header, count := 2, transactions := [minerRewardTx, bobTx] }],
    current_transaction := [] }

/-- A header whose difficulty (64) exceeds the length (62) of its own digest
string: the digest has two bytes below `0x10`, each rendered with a single
character. -/
def powPanicHeader : Header :=
  { timestamp := ⟨101, 0⟩, nonce := 0, pre_hash := genesisSentinel, merkle_root := "",
    difficulty := 64 }

/-- An arbitrary concrete header with difficulty `0`. -/
def zeroDiffHeader : Header :=
  { timestamp := ⟨0, 0⟩, nonce := 0, pre_hash := genesisSentinel, merkle_root := "",
    difficulty := 0 }

/-! ### The `mkRat` forms agree with rational subtraction and addition -/

theorem ratSub_eq (a b : ℚ) : ratSub a b = a - b := by
  rw [Rat.sub_def, ratSub, mkRat, dif_neg (Nat.mul_ne_zero a.den_nz b.den_nz)]

theorem ratAdd_eq (a b : ℚ) : ratAdd a b = a + b := by
  rw [Rat.add_def, ratAdd, mkRat, dif_neg (Nat.mul_ne_zero a.den_nz b.den_nz)]

/-! ### Facts about the digest rendering -/

theorem isHexChar_hexDigitChar : ∀ n, n < 16 → isHexChar (hexDigitChar n) = true := by decide

theorem byteHex_hex {b : Nat} (hb : b < 256) {c : Char} (hc : c ∈ byteHex b) :
    isHexChar c = true := by
  unfold byteHex at hc
  split at hc
  · simp only [List.mem_singleton] at hc
    subst hc
    exact isHexChar_hexDigitChar b (by omega)
  · simp only [List.mem_cons, List.not_mem_nil, or_false] at hc
    rcases hc with rfl | rfl
    · exact isHexChar_hexDigitChar (b / 16) (Nat.div_lt_of_lt_mul (by omega))
    · exact isHexChar_hexDigitChar (b % 16) (Nat.mod_lt b (by omega))

theorem wordBytes_lt {w b : Nat} (h : b ∈ wordBytes w) : b < 256 := by
  simp only [wordBytes, List.mem_cons, List.not_mem_nil, or_false] at h
  rcases h with rfl | rfl | rfl | rfl <;> exact Nat.mod_lt _ (by omega)

theorem sha256_lt {msg : List Nat} {b : Nat} (h : b ∈ sha256 msg) : b < 256 := by
  simp only [sha256, List.mem_append] at h
  rcases h with ((((((h | h) | h) | h) | h) | h) | h) | h <;> exact wordBytes_lt h

theorem sha256_length (msg : List Nat) : (sha256 msg).length = 32 := by
  simp [sha256, wordBytes]

theorem hex_chars_hex {bs : List Nat} (hbs : ∀ b ∈ bs, b < 256) {c : Char}
    (hc : c ∈ (hex_to_string bs).data) : isHexChar c = true := by
  simp only [hex_to_string, List.mem_flatten, List.mem_map] at hc
  obtain ⟨l, ⟨b, hb, rfl⟩, hcl⟩ := hc
  exact byteHex_hex (hbs b hb) hcl

/-- Every character of a `Chain::hash` digest string is a lowercase hex digit. -/
theorem hash_hex {s : String} {c : Char} (hc : c ∈ (Chain.hash s).data) : isHexChar c = true :=
  hex_chars_hex (fun _ hb => sha256_lt hb) hc

theorem flatten_byteHex_length (bs : List Nat) :
    bs.length ≤ ((bs.map byteHex).flatten).length ∧
      ((bs.map byteHex).flatten).length ≤ 2 * bs.length := by
  induction bs with
  | nil => simp
  | cons b rest ih =>
    have hb : (byteHex b).length = 1 ∨ (byteHex b).length = 2 := by
      unfold byteHex; split <;> simp
    simp only [List.map_cons, List.flatten_cons, List.length_append, List.length_cons]
    omega

/-- A digest string has between 32 and 64 characters: each of the 32 bytes is
rendered with one or two characters (no zero padding). -/
theorem hash_length (s : String) : 32 ≤ (Chain.hash s).length ∧ (Chain.hash s).length ≤ 64 := by
  have h := flatten_byteHex_length (sha256 (strBytes s))
  rw [sha256_length] at h
  have he : (Chain.hash s).length = ((sha256 (strBytes s)).map byteHex).flatten.length := rfl
  omega

/-! ### Facts about `str::parse::<u32>` -/

theorem char_digit_bounds {c : Char} (h : c.isDigit = true) : 48 ≤ c.toNat ∧ c.toNat ≤ 57 := by
  unfold Char.isDigit at h
  rw [Bool.and_eq_true, decide_eq_true_iff, decide_eq_true_iff] at h
  exact ⟨UInt32.le_toNat_of_le (by norm_num) h.1, UInt32.toNat_le_of_le (by norm_num) h.2⟩

theorem char_eq_zero {c : Char} (hd : c.isDigit = true) (hz : c.toNat ≤ 48) : c = '0' := by
  have hb := char_digit_bounds hd
  have h48 : c.toNat = 48 := le_antisymm hz hb.1
  calc c = Char.ofNat c.toNat := (Char.ofNat_toNat c).symm
    _ = Char.ofNat 48 := by rw [h48]
    _ = '0' := by decide

theorem parseDigits_eq_zero : ∀ (cs : List Char) (acc : Nat),
    parseDigits cs acc = some 0 → acc = 0 ∧ ∀ c ∈ cs, c = '0' := by
  intro cs
  induction cs with
  | nil =>
    intro acc h
    simp only [parseDigits, Option.some.injEq] at h
    simp [h]
  | cons c rest ih =>
    intro acc h
    unfold parseDigits at h
    split at h
    · split at h
      · obtain ⟨hacc, hall⟩ := ih _ h
        refine ⟨by omega, ?_⟩
        intro x hx
        simp only [List.mem_cons] at hx
        rcases hx with rfl | hx
        · exact char_eq_zero (by assumption) (by omega)
        · exact hall x hx
      · cases h
    · cases h

theorem parseDigits_zeros : ∀ cs : List Char, (∀ c ∈ cs, c = '0') → parseDigits cs 0 = some 0 := by
  intro cs
  induction cs with
  | nil => intro; rfl
  | cons c rest ih =>
    intro h
    have hc : c = '0' := h c (by simp)
    subst hc
    have hr := ih (fun x hx => h x (by simp [hx]))
    have hstep : parseDigits ('0' :: rest) 0 = parseDigits rest 0 := rfl
    rw [hstep]
    exact hr

theorem parseU32_eq_zero {s : String} (h : parseU32 s = some 0)
    (hplus : s.data.head? ≠ some '+') : ∀ c ∈ s.data, c = '0' := by
  unfold parseU32 at h
  split at h
  · simp at h
  · rename_i rest heq
    rw [heq] at hplus
    simp at hplus
  · exact (parseDigits_eq_zero _ _ h).2

theorem parseU32_zeros {cs : List Char} (hne : cs ≠ []) (hall : ∀ c ∈ cs, c = '0') :
    parseU32 (String.mk cs) = some 0 := by
  match cs, hne with
  | c :: rest, _ =>
    have hc : c = '0' := hall c (by simp)
    subst hc
    show parseDigits ('0' :: rest) 0 = some 0
    exact parseDigits_zeros _ hall

/-! ### Facts about the proof-of-work loop -/

theorem powCheck_eq_true {s : String} {d : Nat} (h : powCheck s d = some true) :
    d ≤ s.length ∧ parseU32 (strSlice s d) = some 0 := by
  unfold powCheck at h
  split at h
  · cases h
  · refine ⟨by omega, ?_⟩
    split at h
    · rename_i val hval
      split at h
      · cases h
      · rename_i hne
        simp only [bne_iff_ne, ne_eq, not_not] at hne
        rw [hval, hne]
    · cases h

theorem powCheck_all_zero {s : String} {d : Nat} (h1 : 1 ≤ d) (h2 : d ≤ s.length)
    (hall : ∀ c ∈ s.data.take d, c = '0') : powCheck s d = some true := by
  have hlen : (s.data.take d).length = d := by
    rw [List.length_take]
    have : s.length = s.data.length := rfl
    omega
  have hne : s.data.take d ≠ [] := by
    intro hnil
    rw [hnil] at hlen
    simp at hlen
    omega
  have hp : parseU32 (strSlice s d) = some 0 := parseU32_zeros hne hall
  unfold powCheck
  rw [if_neg (by omega), hp]
  rfl

theorem powLoop_sealed : ∀ {fuel : Nat} {h h' : Header},
    powLoop fuel h = some (PowResult.sealed h') →
    powCheck (Chain.hash (headerJson h')) h'.difficulty = some true ∧
      h'.timestamp = h.timestamp ∧ h'.pre_hash = h.pre_hash ∧
      h'.merkle_root = h.merkle_root ∧ h'.difficulty = h.difficulty := by
  intro fuel
  induction fuel with
  | zero => intro h h' hp; cases hp
  | succ n ih =>
    intro h h' hp
    unfold powLoop at hp
    split at hp
    · cases hp
    · rename_i hchk
      injection hp with hp
      injection hp with hp
      subst hp
      exact ⟨hchk, rfl, rfl, rfl, rfl⟩
    · obtain ⟨hc, ht, hpre, hm, hd⟩ := ih hp
      exact ⟨hc, ht, hpre, hm, hd⟩

/-- When the parse-and-compare check succeeds on a string of hex characters,
the inspected prefix is all `'0'`s. -/
theorem powCheck_true_all_zero {s : String} {d : Nat}
    (hhex : ∀ c ∈ s.data, isHexChar c = true)
    (h : powCheck s d = some true) : ∀ c ∈ s.data.take d, c = '0' := by
  obtain ⟨-, hparse⟩ := powCheck_eq_true h
  have hplus : (strSlice s d).data.head? ≠ some '+' := by
    intro hhead
    have hmem : '+' ∈ (strSlice s d).data :=
      List.mem_of_mem_head? (Option.mem_def.mpr hhead)
    have hx := hhex _ (List.mem_of_mem_take hmem)
    simp [isHexChar] at hx
  exact parseU32_eq_zero hparse hplus

/-- A sealed header's hash starts with `difficulty` many `'0'` characters. -/
theorem sealed_take_zero {fuel : Nat} {h h' : Header}
    (hp : powLoop fuel h = some (PowResult.sealed h')) :
    ∀ c ∈ (Chain.hash (headerJson h')).data.take h'.difficulty, c = '0' :=
  powCheck_true_all_zero (fun _ hc => hash_hex hc) (powLoop_sealed hp).1

theorem powLoop_difficulty_le {fuel : Nat} {h h' : Header}
    (hp : powLoop fuel h = some (PowResult.sealed h')) :
    h'.difficulty ≤ (Chain.hash (headerJson h')).length :=
  (powCheck_eq_true (powLoop_sealed hp).1).1

/-! ### Facts about the Merkle loop -/

theorem merkleLoop_ne_nil : ∀ (fuel : Nat) (l : List String), l ≠ [] → merkleLoop fuel l ≠ [] := by
  intro fuel
  induction fuel with
  | zero => intro l hl; exact hl
  | succ n ih =>
    intro l hl
    match l with
    | [a] => exact hl
    | a :: b :: rest =>
      show merkleLoop n (rest ++ [Chain.hash (stringJson (a ++ b))]) ≠ []
      exact ih _ (by simp)

theorem getLast?_isSome_of_ne_nil {α : Type} {l : List α} (h : l ≠ []) :
    ∃ x, l.getLast? = some x := by
  cases hl : l.getLast? with
  | none => exact absurd (List.getLast?_eq_none_iff.mp hl) h
  | some x => exact ⟨x, rfl⟩

theorem merklePad_ne_nil {l : List String} (h : l ≠ []) : merklePad l ≠ [] := by
  unfold merklePad
  split
  · split
    · simp
    · exact h
  · exact h

theorem get_merkle_isSome {txs : List Transaction} (h : txs ≠ []) :
    ∃ root, Chain.get_merkle txs = some root := by
  have h1 : txs.map (fun t => Chain.hash (txJson t)) ≠ [] := by
    simpa using h
  exact getLast?_isSome_of_ne_nil (merkleLoop_ne_nil _ _ (merklePad_ne_nil h1))

/-! ### Shapes of the chain operations -/

theorem generate_spec {c : Chain} {now : TimeStamp} {fuel : Nat} {ok : Bool} {c' : Chain}
    (h : c.generate_new_block now fuel = some (ok, c')) :
    ok = true ∧ ∃ root sealed,
      Chain.get_merkle (rewardTxOf c :: c.current_transaction) = some root ∧
      powLoop fuel { timestamp := now, nonce := 0, pre_hash := c.last_hash,
                     merkle_root := root, difficulty := c.difficulty }
        = some (PowResult.sealed sealed) ∧
      c' = { c with
             records := creditReward c.records c.miner_address c.reward,
             current_transaction := [],
             chain := c.chain ++
               [{ header := sealed,
                  count := (rewardTxOf c :: c.current_transaction).length,
                  transactions := rewardTxOf c :: c.current_transaction }] } := by
  simp only [Chain.generate_new_block] at h
  split at h
  · cases h
  · rename_i root hroot
    split at h
    · cases h
    · cases h
    · rename_i sealed hpow
      injection h with h
      injection h with h1 h2
      exact ⟨h1.symm, root, sealed, hroot, hpow, h2.symm⟩

theorem new_spec {m : String} {d : Nat} {now : TimeStamp} {fuel : Nat} {c : Chain}
    (h : Chain.new m d now fuel = some c) :
    ∃ root sealed,
      powLoop fuel { timestamp := now, nonce := 0, pre_hash := genesisSentinel,
                     merkle_root := root, difficulty := d } = some (PowResult.sealed sealed) ∧
      c = { records := [(m, 100)],
            chain := [{ header := sealed, count := 1,
                        transactions := [{ sender := "Root", receiver := m, amount := 100 }] }],
            current_transaction := [], difficulty := d, miner_address := m, reward := 100 } := by
  unfold Chain.new at h
  split at h
  · rename_i ok c' hgen
    obtain ⟨-, root, sealed, hroot, hpow, hc'⟩ := generate_spec hgen
    injection h with h
    subst h
    exact ⟨root, sealed, hpow, hc'⟩
  · cases h

theorem check_pair_fields {c : Chain} {s r : String} {a : ℚ} {ok : Bool} {c' : Chain}
    (h : (c.check_transfer_availability s r a).2 = some (ok, c')) :
    c'.chain = c.chain ∧ c'.current_transaction = c.current_transaction ∧
      c'.difficulty = c.difficulty ∧ c'.miner_address = c.miner_address ∧
      c'.reward = c.reward := by
  unfold Chain.check_transfer_availability at h
  split at h
  · split at h
    · injection h with h
      injection h with h1 h2
      subst h2
      exact ⟨rfl, rfl, rfl, rfl, rfl⟩
    · split at h
      · injection h with h
        injection h with h1 h2
        subst h2
        exact ⟨rfl, rfl, rfl, rfl, rfl⟩
      · cases h
  · split at h
    · injection h with h
      injection h with h1 h2
      subst h2
      exact ⟨rfl, rfl, rfl, rfl, rfl⟩
    · cases h

theorem new_transaction_chain {c : Chain} {s r : String} {a : ℚ} {ok : Bool} {c' : Chain}
    (h : c.new_transaction s r a = some (ok, c')) : c'.chain = c.chain := by
  unfold Chain.new_transaction at h
  split at h
  · cases h
  · rename_i cc hcc
    injection h with h
    injection h with h1 h2
    subst h2
    exact (check_pair_fields hcc).1
  · rename_i cc hcc
    injection h with h
    injection h with h1 h2
    subst h2
    exact (check_pair_fields hcc).1

/-! ### Hash-linking invariant -/

theorem last_hash_eq (c : Chain) : c.last_hash = lastHashOf genesisSentinel c.chain := rfl

theorem lastHashOf_cons (s : String) (x : Block) (rest : List Block) :
    lastHashOf s (x :: rest) = lastHashOf (Chain.hash (headerJson x.header)) rest := by
  cases rest with
  | nil => rfl
  | cons y t =>
    obtain ⟨z, hz⟩ := getLast?_isSome_of_ne_nil (l := y :: t) (by simp)
    simp [lastHashOf, List.getLast?_cons_cons, hz]

theorem linkedFrom_append {l : List Block} {b : Block} : ∀ {s : String},
    linkedFrom s l = true → b.header.pre_hash = lastHashOf s l →
    linkedFrom s (l ++ [b]) = true := by
  induction l with
  | nil =>
    intro s _ hb
    simp only [List.nil_append, linkedFrom, Bool.and_eq_true, beq_iff_eq]
    exact ⟨hb, trivial⟩
  | cons x rest ih =>
    intro s hl hb
    simp only [linkedFrom, Bool.and_eq_true] at hl
    simp only [List.cons_append, linkedFrom, Bool.and_eq_true]
    rw [lastHashOf_cons] at hb
    exact ⟨hl.1, ih hl.2 hb⟩

/-- The structural invariant maintained by every reachable chain state:
a non-empty chain, hash-linked from the genesis sentinel, with accurate
transaction counts and a single-transaction genesis block. -/
theorem reachable_inv {c : Chain} (h : Reachable c) :
    c.chain ≠ [] ∧ linkedFrom genesisSentinel c.chain = true ∧
      (∀ b ∈ c.chain, b.count = b.transactions.length) ∧
      (∀ b, c.chain.head? = some b → b.count = 1) := by
  induction h with
  | new m d now fuel c hc =>
    obtain ⟨root, sealed, hp, rfl⟩ := new_spec hc
    obtain ⟨-, -, hpre, -, -⟩ := powLoop_sealed hp
    refine ⟨by simp, ?_, ?_, ?_⟩
    · simp [linkedFrom, hpre, genesisSentinel]
    · intro b hb
      simp only [List.mem_singleton] at hb
      subst hb
      rfl
    · intro b hb
      simp only [List.head?_cons, Option.some.injEq] at hb
      subst hb
      rfl
  | tx c s r a ok c' hr htx ih =>
    rw [new_transaction_chain htx]
    exact ih
  | gen c now fuel ok c' hr hgen ih =>
    obtain ⟨hne, hlink, hcount, hhead⟩ := ih
    obtain ⟨-, root, sealed, hroot, hp, rfl⟩ := generate_spec hgen
    obtain ⟨-, -, hpre, -, -⟩ := powLoop_sealed hp
    refine ⟨by simp, ?_, ?_, ?_⟩
    · exact linkedFrom_append hlink (by rw [hpre]; rfl)
    · intro b hb
      rw [List.mem_append] at hb
      rcases hb with hb | hb
      · exact hcount b hb
      · simp only [List.mem_singleton] at hb
        subst hb
        rfl
    · intro b hb
      cases hch : c.chain with
      | nil => exact absurd hch hne
      | cons x t =>
        rw [hch] at hb
        simp only [List.cons_append, List.head?_cons, Option.some.injEq] at hb
        subst hb
        exact hhead x (by rw [hch]; rfl)
  | upd_difficulty c d hr ih => exact ih
  | upd_reward c r hr ih => exact ih

/-! ### Concrete executions -/

set_option maxRecDepth 1000000 in
theorem exampleChain_eq : Chain.new "miner1" 1 TS1 1 = some exampleChain := by decide

theorem exampleChainB_eq :
    exampleChain.new_transaction "miner1" "bob" 30 = some (true, exampleChainB) := by decide

set_option maxRecDepth 1000000 in
theorem exampleChain2_eq :
    exampleChainB.generate_new_block TS2 1 = some (true, exampleChain2) := by decide

set_option maxRecDepth 1000000 in
theorem genesis_pow_eq : powLoop 1 genesisHeader = some (PowResult.sealed genesisHeader) := by
  decide

/-! ### The claims -/

/-- C1 (counterexample): at a concrete state whose ledger has no entry for
the sender, `check_transfer_availability` prints "Sender not found!" and then
**panics** (`none`) at the deduction step, refuting the claim that it
continues executing rather than panicking. -/
theorem c1_counterexample :
    exampleChain.check_transfer_availability "alice" "carol" 5 =
      (["Sender not found!"], none) := by
  decide

/-- C1 (amended): when the sender has no recorded balance entry,
`check_transfer_availability` reports "sender not found" and does not return
early with a rejection: it proceeds to the deduction step, where the
`get_mut(sender).unwrap()` panics (modelled as `none`). -/
theorem c1_missing_sender (c : Chain) (sender receiver : String) (amount : ℚ)
    (h : recGet c.records sender = none) :
    c.check_transfer_availability sender receiver amount = (["Sender not found!"], none) := by
  simp [Chain.check_transfer_availability, applyTransfer, h]

/-- C1 (witness): the amended theorem at a concrete state and sender. -/
theorem c1_missing_sender_witness :
    exampleChain.check_transfer_availability "dave" "erin" 7 =
      (["Sender not found!"], none) :=
  c1_missing_sender exampleChain "dave" "erin" 7 (by decide)

set_option maxRecDepth 1000000 in
/-- C2 (counterexample): at difficulty `0` the parse-and-compare check never
succeeds — the empty prefix fails to parse — even though all `0` leading
characters of the hash are vacuously `'0'`; so "the check succeeds exactly
when all `d` leading characters are `'0'`" fails at `d = 0`. -/
theorem c2_counterexample :
    powCheck (Chain.hash (headerJson zeroDiffHeader)) 0 = some false ∧
      ∀ c ∈ (Chain.hash (headerJson zeroDiffHeader)).data.take 0, c = '0' := by
  refine ⟨by decide, ?_⟩
  simp

/-- C2 (amended): whenever `proof_of_work` terminates, the first `difficulty`
characters of the sealed header's hash are all `'0'` (for every difficulty,
`0` included); and for every header and every `d ≥ 1` within the digest's
length, the parse-leading-`d`-characters-and-compare-to-zero check succeeds
exactly when all `d` leading characters are `'0'`. -/
theorem c2_pow_leading_zeros :
    (∀ fuel h h', powLoop fuel h = some (PowResult.sealed h') →
      ∀ c ∈ (Chain.hash (headerJson h')).data.take h'.difficulty, c = '0') ∧
    ∀ (hd : Header) (d : Nat), 1 ≤ d → d ≤ (Chain.hash (headerJson hd)).length →
      (powCheck (Chain.hash (headerJson hd)) d = some true ↔
        ∀ c ∈ (Chain.hash (headerJson hd)).data.take d, c = '0') := by
  constructor
  · exact fun _ _ _ hp => sealed_take_zero hp
  · intro hd d h1 h2
    constructor
    · exact fun hchk => powCheck_true_all_zero (fun _ hc => hash_hex hc) hchk
    · exact fun hall => powCheck_all_zero h1 h2 hall

/-- C2 (witness): both parts at the concrete sealed genesis header and
difficulty `1`. -/
theorem c2_pow_leading_zeros_witness :
    (∀ c ∈ (Chain.hash (headerJson genesisHeader)).data.take genesisHeader.difficulty, c = '0') ∧
      (powCheck (Chain.hash (headerJson genesisHeader)) 1 = some true ↔
        ∀ c ∈ (Chain.hash (headerJson genesisHeader)).data.take 1, c = '0') :=
  ⟨c2_pow_leading_zeros.1 1 genesisHeader genesisHeader genesis_pow_eq,
   c2_pow_leading_zeros.2 genesisHeader 1 (by omega)
     (by have := (hash_length (headerJson genesisHeader)).1; omega)⟩

set_option maxRecDepth 1000000 in
/-- C3 (counterexample): the chain freshly constructed by
`Chain::new("miner1", 1)` (at time `TS1`) has a `last_hash()` of 63
characters — two digest bytes are below `0x10` and are rendered without
padding, and the difficulty-1 leading `'0'` is one of them — refuting both
"at least 64 hex characters" and "exactly 64". -/
theorem c3_counterexample :
    Chain.new "miner1" 1 TS1 1 = some exampleChain ∧
      exampleChain.last_hash.length = 63 :=
  ⟨exampleChain_eq, by decide⟩

/-- C3 (amended): `last_hash()` always returns between 32 and 64 characters
(64 exactly when every digest byte is at least `0x10`, or for the genesis
sentinel), and on a freshly constructed chain with difficulty at least 1 its
first character is `'0'`. -/
theorem c3_last_hash_bounds :
    (∀ c : Chain, 32 ≤ c.last_hash.length ∧ c.last_hash.length ≤ 64) ∧
      ∀ m d now fuel c, Chain.new m d now fuel = some c → 1 ≤ d →
        c.last_hash.data.head? = some '0' := by
  constructor
  · intro c
    unfold Chain.last_hash
    split
    · exact hash_length _
    · exact ⟨by decide, by decide⟩
  · intro m d now fuel c hnew hd
    obtain ⟨root, sealed, hp, rfl⟩ := new_spec hnew
    have hdiff : sealed.difficulty = d := (powLoop_sealed hp).2.2.2.2
    have hzero := sealed_take_zero hp
    rw [hdiff] at hzero
    show (Chain.hash (headerJson sealed)).data.head? = some '0'
    have hlen := (hash_length (headerJson sealed)).1
    cases hdata : (Chain.hash (headerJson sealed)).data with
    | nil =>
      have : (Chain.hash (headerJson sealed)).length = 0 := by
        show (Chain.hash (headerJson sealed)).data.length = 0
        rw [hdata]
        rfl
      omega
    | cons a t =>
      rw [hdata] at hzero
      have ha : a = '0' := by
        apply hzero
        cases d with
        | zero => omega
        | succ e => simp [List.take]
      rw [ha]
      rfl

/-- C3 (witness): the amended bounds and first-character fact at the concrete
fresh chain. -/
theorem c3_last_hash_bounds_witness :
    (32 ≤ exampleChain.last_hash.length ∧ exampleChain.last_hash.length ≤ 64) ∧
      exampleChain.last_hash.data.head? = some '0' :=
  ⟨c3_last_hash_bounds.1 exampleChain,
   c3_last_hash_bounds.2 "miner1" 1 TS1 1 exampleChain exampleChain_eq (by omega)⟩

/-- C4: when the sender's recorded balance is strictly below the transfer
amount, `new_transaction` returns `false` and the entire chain state —
ledger balances of both parties, pending queue, and blocks — is unchanged,
so the transaction never reaches any block. -/
theorem c4_insufficient_rejected (c : Chain) (sender receiver : String) (amount v : ℚ)
    (hv : recGet c.records sender = some v) (hlt : v < amount) :
    c.new_transaction sender receiver amount = some (false, c) := by
  simp [Chain.new_transaction, Chain.check_transfer_availability, hv, if_pos hlt]

/-- C4 (witness): a transfer of 200 from a balance of 100 is rejected without
mutation. -/
theorem c4_insufficient_rejected_witness :
    exampleChain.new_transaction "miner1" "zoe" 200 = some (false, exampleChain) :=
  c4_insufficient_rejected exampleChain "miner1" "zoe" 200 100 (by decide) (by norm_num)

/-- C5: from any successful `Chain::new("miner1", d)`, the ledger maps
`miner1` to 100; `new_transaction("miner1", "bob", 30)` succeeds; and any
subsequent successful `generate_new_block()` appends a block of exactly the
reward transaction followed by the transfer (count 2), leaving `miner1` at
170 and `bob` at 30. -/
theorem c5_scenario (d : Nat) (ts1 : TimeStamp) (fuel1 : Nat) (c1 : Chain)
    (h1 : Chain.new "miner1" d ts1 fuel1 = some c1) :
    recGet c1.records "miner1" = some 100 ∧
      ∃ c2, c1.new_transaction "miner1" "bob" 30 = some (true, c2) ∧
        ∀ ts2 fuel2 ok c3, c2.generate_new_block ts2 fuel2 = some (ok, c3) →
          (∃ b, c3.chain.getLast? = some b ∧ b.count = 2 ∧
              b.transactions = [⟨"Root", "miner1", 100⟩, ⟨"miner1", "bob", 30⟩]) ∧
            recGet c3.records "miner1" = some 170 ∧ recGet c3.records "bob" = some 30 := by
  obtain ⟨root, sealed, hp, rfl⟩ := new_spec h1
  refine ⟨rfl,
    ⟨{ records := [("miner1", ratSub 100 30), ("bob", 30)],
       chain := [{ header := sealed, count := 1,
                   transactions := [{ sender := "Root", receiver := "miner1", amount := 100 }] }],
       current_transaction := [{ sender := "miner1", receiver := "bob", amount := 30 }],
       difficulty := d, miner_address := "miner1", reward := 100 }, rfl, ?_⟩⟩
  intro ts2 fuel2 ok c3 h3
  obtain ⟨-, root2, sealed2, hroot2, hp2, rfl⟩ := generate_spec h3
  refine ⟨⟨_, List.getLast?_concat _, rfl, rfl⟩, ?_, ?_⟩
  · show recGet (creditReward [("miner1", ratSub 100 30), ("bob", 30)] "miner1" 100)
      "miner1" = some 170
    decide
  · show recGet (creditReward [("miner1", ratSub 100 30), ("bob", 30)] "miner1" 100)
      "bob" = some 30
    decide

/-- C5 (witness): the scenario discharged at the concrete run
(`TS1`, fuel 1). -/
theorem c5_scenario_witness :
    recGet exampleChain.records "miner1" = some 100 ∧
      ∃ c2, exampleChain.new_transaction "miner1" "bob" 30 = some (true, c2) ∧
        ∀ ts2 fuel2 ok c3, c2.generate_new_block ts2 fuel2 = some (ok, c3) →
          (∃ b, c3.chain.getLast? = some b ∧ b.count = 2 ∧
              b.transactions = [⟨"Root", "miner1", 100⟩, ⟨"miner1", "bob", 30⟩]) ∧
            recGet c3.records "miner1" = some 170 ∧ recGet c3.records "bob" = some 30 :=
  c5_scenario 1 TS1 1 exampleChain exampleChain_eq

/-- C6: an odd-length non-empty transaction list yields the same Merkle root
as the list with its last element appended once more: the padding step of
`get_merkle` produces exactly that duplicated list. -/
theorem c6_merkle_odd_duplicate (L : List Transaction) (x : Transaction)
    (hlast : L.getLast? = some x) (hodd : L.length % 2 = 1) :
    Chain.get_merkle L = Chain.get_merkle (L ++ [x]) := by
  have h1 : merklePad (L.map (fun t => Chain.hash (txJson t)))
      = L.map (fun t => Chain.hash (txJson t)) ++ [Chain.hash (txJson x)] := by
    unfold merklePad
    rw [List.length_map, List.getLast?_map, hlast]
    simp [hodd]
  have h2 : merklePad ((L ++ [x]).map (fun t => Chain.hash (txJson t)))
      = L.map (fun t => Chain.hash (txJson t)) ++ [Chain.hash (txJson x)] := by
    unfold merklePad
    have hlen : ((L ++ [x]).map (fun t => Chain.hash (txJson t))).length % 2 = 0 := by
      rw [List.length_map, List.length_append]
      simp only [List.length_singleton]
      omega
    rw [hlen]
    simp
  unfold Chain.get_merkle
  rw [h1, h2]

/-- C6 (witness): the duplication equality at a concrete one-element list. -/
theorem c6_merkle_odd_duplicate_witness :
    Chain.get_merkle [bobTx] = Chain.get_merkle ([bobTx] ++ [bobTx]) :=
  c6_merkle_odd_duplicate [bobTx] bobTx (by decide) (by decide)

/-- C7: in every reachable state the (non-empty) chain is hash-linked: the
genesis block's `pre_hash` is the 64-`'0'` sentinel and every later block's
`pre_hash` is the hash of its predecessor's header. -/
theorem c7_hash_linked (c : Chain) (h : Reachable c) :
    c.chain ≠ [] ∧ linkedFrom genesisSentinel c.chain = true :=
  ⟨(reachable_inv h).1, (reachable_inv h).2.1⟩

/-- C7 (witness): the linking invariant at the concrete fresh chain. -/
theorem c7_hash_linked_witness :
    exampleChain.chain ≠ [] ∧ linkedFrom genesisSentinel exampleChain.chain = true :=
  c7_hash_linked exampleChain (Reachable.new "miner1" 1 TS1 1 exampleChain exampleChain_eq)

/-- C8: a successful `generate_new_block` leaves `current_transaction` empty —
the queue is drained into the single appended block, whose transactions are
the reward transaction followed by exactly the previously queued ones. -/
theorem c8_queue_drained (c : Chain) (now : TimeStamp) (fuel : Nat) (ok : Bool) (c' : Chain)
    (h : c.generate_new_block now fuel = some (ok, c')) :
    c'.current_transaction = [] ∧
      ∃ b, c'.chain = c.chain ++ [b] ∧
        b.transactions = rewardTxOf c :: c.current_transaction := by
  obtain ⟨-, root, sealed, -, -, rfl⟩ := generate_spec h
  exact ⟨rfl, _, rfl, rfl⟩

/-- C8 (witness): the drained queue at the concrete second block. -/
theorem c8_queue_drained_witness :
    exampleChain2.current_transaction = [] ∧
      ∃ b, exampleChain2.chain = exampleChainB.chain ++ [b] ∧
        b.transactions = rewardTxOf exampleChainB :: exampleChainB.current_transaction :=
  c8_queue_drained exampleChainB TS2 1 true exampleChain2 exampleChain2_eq

/-- C9: in every reachable state every block's `count` equals the length of
its transaction list, and the genesis (head) block has `count = 1`. -/
theorem c9_count_accurate (c : Chain) (h : Reachable c) :
    (∀ b ∈ c.chain, b.count = b.transactions.length) ∧
      (∀ b, c.chain.head? = some b → b.count = 1) :=
  ⟨(reachable_inv h).2.2.1, (reachable_inv h).2.2.2⟩

/-- C9 (witness): the count invariant at the concrete two-block chain,
reached by construction, transfer and block generation. -/
theorem c9_count_accurate_witness :
    (∀ b ∈ exampleChain2.chain, b.count = b.transactions.length) ∧
      (∀ b, exampleChain2.chain.head? = some b → b.count = 1) :=
  c9_count_accurate exampleChain2
    (Reachable.gen exampleChainB TS2 1 true exampleChain2
      (Reachable.tx exampleChain "miner1" "bob" 30 true exampleChainB
        (Reachable.new "miner1" 1 TS1 1 exampleChain exampleChain_eq) exampleChainB_eq)
      exampleChain2_eq)

set_option maxRecDepth 1000000 in
/-- C10: a concrete header with difficulty 64 whose digest string has only 62
characters (two digest bytes are below `0x10` and are rendered without
padding): `proof_of_work` panics on the slice `&hash[..difficulty]` in its
first iteration instead of sealing or retrying, so the slice is not total in
the difficulty. -/
theorem c10_pow_slice_panics :
    (Chain.hash (headerJson powPanicHeader)).length < powPanicHeader.difficulty ∧
      powPanicHeader.difficulty ≤ 64 ∧
      powLoop 1 powPanicHeader = some PowResult.panicked := by
  refine ⟨by decide, by decide, by decide⟩

end Toy
